import Mathlib

/-!
Verification of the tree flattening / merging / deduplication pipeline of
`emlearn/trees.py` (functions `quantize_probabilities`, `flatten_tree`,
`assert_node_references_valid`, `assert_forest_valid`, `flatten_forest`,
`remove_duplicate_leaves`, `leaves_to_bytelist`, and the capacity gate of
`Wrapper.__init__`).

Modelling conventions:
* Python floats are modelled as rationals (`Rat`); the pipeline only copies
  and compares thresholds/values, never rounds them.
* A Python function that can raise (`assert`, `IndexError`, `KeyError`,
  `ZeroDivisionError`) is modelled as returning `Option`/`Except`, with
  `none`/`.error` standing for the raised exception.
* Python `assert` statements inside the pipeline are embedded as explicit
  guards at the same program point, in source order.
-/

/-- Selects the leaf payload computation, mirroring the `leaf` string
parameter (`'argmax'` / `'value'` / `'probabilities'`) of `flatten_tree`. -/
inductive LeafMode where
  | argmax
  | value
  | probabilities
deriving DecidableEq, Repr

/-- Payload stored in a leaf node: a majority class index (`argmax` mode),
a regression scalar (`value` mode), or a quantized probability vector
(`probabilities` mode).  Python stores these untagged; the tag only records
which branch of `add_leaf` produced the value. -/
inductive LeafPayload where
  | cls : Nat → LeafPayload
  | val : Rat → LeafPayload
  | probs : List Nat → LeafPayload
deriving DecidableEq, Repr

/-- Decision node `[feature, threshold, left, right]` as built by
`flatten_tree`: a non-negative child is an index into the decision-node
array, a negative child `-(i+1)` references leaf `i`. -/
structure DNode where
  feature : Int
  threshold : Rat
  left : Int
  right : Int
deriving DecidableEq, Repr

/-- Result of `flatten_tree`: the pair `(decision_nodes, leaf_nodes)`. -/
structure FlatTree where
  decision_nodes : List DNode
  leaf_nodes : List LeafPayload
deriving DecidableEq, Repr

/-- Forest triple `(nodes, roots, leaves)` as produced by `flatten_forest`
and consumed by `remove_duplicate_leaves` and the code emitters. -/
structure Forest where
  nodes : List DNode
  roots : List Int
  leaves : List LeafPayload
deriving DecidableEq, Repr

/-- Source tree in the scikit-learn parallel-array format consumed by
`flatten_tree`: `children_left[i]`/`children_right[i]` (sentinel `-1`
means no child), `feature[i]`, `threshold[i]`, and the per-node value row
`value[i]` (the single output row `tree.value[i][0]`; the Python assertion
`tree.value.shape[1] == 1` is reflected by storing exactly that row). -/
structure SourceTree where
  children_left : List Int
  children_right : List Int
  feature : List Int
  threshold : List Rat
  value : List (List Rat)
  node_count : Nat
deriving DecidableEq, Repr

/-- Index of the first maximal element, mirroring `numpy.argmax` on the
tail of the row: `best`/`bestVal` track the best index and value so far,
`cur` is the index of the list head. -/
def argmaxAux (best : Nat) (bestVal : Rat) (cur : Nat) : List Rat → Nat
  | [] => best
  | x :: xs =>
    if bestVal < x then argmaxAux cur x (cur + 1) xs
    else argmaxAux best bestVal (cur + 1) xs

/-- Mirrors `numpy.argmax(value[0])` (line 54): first index of the maximum;
`numpy.argmax` raises on an empty array, modelled as `none`. -/
def argmaxIdx : List Rat → Option Nat
  | [] => none
  | x :: xs => some (argmaxAux 0 x 1 xs)

/-- Mirrors `numpy.digitize(x, bins)` (default `right=False`) for a strictly
increasing `bins`: the returned index is the number of bin edges `≤ x`. -/
def digitizeOne (bins : List Nat) (x : Rat) : Nat :=
  bins.countP (fun (b : Nat) => decide ((b : Rat) ≤ x))

/-- Embeds `quantize_probabilities(p, bits)` (trees.py lines 23-31):
asserts `1 ≤ bits ≤ 8`, forms `steps = 2^bits - 1` bin edges
`numpy.arange(0, steps) = [0, 1, ..., steps-1]`, digitizes each entry and
casts to `uint8` (`% 256`).  Assertion failure is modelled as `none`. -/
def quantize_probabilities (p : List Rat) (bits : Nat) : Option (List Nat) :=
  if bits ≤ 8 ∧ 1 ≤ bits then
    some (p.map (fun x => digitizeOne (List.range (2 ^ bits - 1)) x % 256))
  else none

/-- Tests whether source node `idx` is a leaf, mirroring
`tree.children_left[idx] == -1 and tree.children_right[idx] == -1`
(line 81).  An out-of-range index is modelled as `none` (scikit-learn
trees never index negatively here, so Python wrap-around is not modelled). -/
def isLeafNode (t : SourceTree) (idx : Int) : Option Bool :=
  if idx < 0 then none
  else
    match t.children_left.get? idx.toNat, t.children_right.get? idx.toNat with
    | some l, some r => some (decide (l = -1) && decide (r = -1))
    | _, _ => none

/-- Computes the leaf payload of `add_leaf` (lines 50-61) from the value
row of source node `idx` according to the leaf mode. -/
def leafValue (mode : LeafMode) (leaf_bits : Nat) (t : SourceTree) (idx : Int) :
    Option LeafPayload :=
  if idx < 0 then none
  else
    match t.value.get? idx.toNat with
    | none => none
    | some row =>
      match mode with
      | .argmax => (argmaxIdx row).map LeafPayload.cls
      | .value => row.head?.map LeafPayload.val
      | .probabilities => (quantize_probabilities row leaf_bits).map LeafPayload.probs

/-- Embeds `process_child(idx)` (lines 80-85) together with the
`add_leaf` side effect on the growing `leaf_nodes` array: a leaf child is
appended and encoded as `-(len(leaf_nodes))-1` (first leaf is `-1`); a
decision child keeps its source index, corrected later. -/
def processChild (mode : LeafMode) (leaf_bits : Nat) (t : SourceTree)
    (leafNodes : List LeafPayload) (idx : Int) :
    Option (Int × List LeafPayload) :=
  match isLeafNode t idx with
  | none => none
  | some true =>
    match leafValue mode leaf_bits t idx with
    | none => none
    | some payload => some (-(leafNodes.length : Int) - 1, leafNodes ++ [payload])
  | some false => some (idx, leafNodes)

/-- Rows of `zip(tree.children_left, tree.children_right, tree.feature,
tree.threshold, tree.value)` (line 90); `zip` truncates to the shortest
array. -/
def sourceRows (t : SourceTree) : List (Int × Int × Int × Rat × List Rat) :=
  t.children_left.zip (t.children_right.zip (t.feature.zip (t.threshold.zip t.value)))

/-- Main loop of `flatten_tree` (lines 88-104) over the zipped source rows:
skips leaf rows, processes the two children of each decision row, appends
the decision node `[feature, th, left, right]`, and records
`decision_node_mapping[node_no] = out_idx`. -/
def flattenLoop (mode : LeafMode) (leaf_bits : Nat) (t : SourceTree) :
    List (Int × Int × Int × Rat × List Rat) → Nat → List DNode →
    List LeafPayload → List (Nat × Nat) →
    Option (List DNode × List LeafPayload × List (Nat × Nat))
  | [], _, dns, lns, mp => some (dns, lns, mp)
  | (left, right, feat, th, _) :: rest, node_no, dns, lns, mp =>
    if left = -1 ∧ right = -1 then
      flattenLoop mode leaf_bits t rest (node_no + 1) dns lns mp
    else
      match processChild mode leaf_bits t lns left with
      | none => none
      | some (lref, lns1) =>
        match processChild mode leaf_bits t lns1 right with
        | none => none
        | some (rref, lns2) =>
          flattenLoop mode leaf_bits t rest (node_no + 1)
            (dns ++ [⟨feat, th, lref, rref⟩]) lns2 (mp ++ [(node_no, dns.length)])

/-- Lookup in `decision_node_mapping`; a missing key is a Python
`KeyError`, modelled as `none`.  Keys (source node numbers) are inserted
at most once, so first-match lookup agrees with dict semantics. -/
def mapLookup (mp : List (Nat × Nat)) (k : Nat) : Option Nat :=
  match mp with
  | [] => none
  | p :: rest => if p.1 = k then some p.2 else mapLookup rest k

/-- Correction of one child reference (lines 107-111): non-negative
children are replaced through `decision_node_mapping`, leaf references are
kept. -/
def remapChild (mp : List (Nat × Nat)) (c : Int) : Option Int :=
  if 0 ≤ c then (mapLookup mp c.toNat).map (fun v => (v : Int)) else some c

/-- Second pass of `flatten_tree` (lines 106-111): rewrites the decision
children of every node to their output positions. -/
def remapNodes (mp : List (Nat × Nat)) (dns : List DNode) : Option (List DNode) :=
  dns.mapM (fun n => do
    let l ← remapChild mp n.left
    let r ← remapChild mp n.right
    pure ⟨n.feature, n.threshold, l, r⟩)

/-- Embeds `assert_node_references_valid(nodes, leaves, roots)`
(trees.py lines 144-172) as a boolean: `true` iff no assertion raises.
The source has a copy-paste slip on line 169: after computing
`invalid_leaves_right` it asserts `invalid_leaves_left` again, so dangling
leaf references reachable only through a RIGHT child are never checked;
the embedding reproduces that slip faithfully. -/
def assert_node_references_valid (nodes : List DNode) (leaves : List LeafPayload)
    (roots : List Int) : Bool :=
  let nNodes : Int := nodes.length
  let nLeaves : Int := leaves.length
  -- invalid_children_left == set() (line 153)
  (nodes.all (fun n => decide (n.left < 0) || decide (n.left < nNodes))) &&
  -- invalid_children_right == set() (line 156)
  (nodes.all (fun n => decide (n.right < 0) || decide (n.right < nNodes))) &&
  -- extranous_nodes == set() (line 159)
  ((List.range nodes.length).all (fun i =>
    nodes.any (fun n => decide (n.left = (i : Int))) ||
    nodes.any (fun n => decide (n.right = (i : Int))) ||
    roots.any (fun r => decide (r = (i : Int))))) &&
  -- invalid_leaves_left == set() (line 166)
  (nodes.all (fun n => decide (0 ≤ n.left) || decide (-n.left - 1 < nLeaves))) &&
  -- line 169 re-asserts invalid_leaves_left (the slip described above)
  (nodes.all (fun n => decide (0 ≤ n.left) || decide (-n.left - 1 < nLeaves))) &&
  -- extranous_leaves == set() (line 172)
  ((List.range leaves.length).all (fun i =>
    nodes.any (fun n => decide (n.left = -(i : Int) - 1)) ||
    nodes.any (fun n => decide (n.right = -(i : Int) - 1))))

/-- Embeds `assert_forest_valid(forest)` (lines 175-178). -/
def assert_forest_valid (f : Forest) : Bool :=
  assert_node_references_valid f.nodes f.leaves f.roots

/-- Embeds `flatten_tree(tree, leaf, leaf_bits)` (trees.py lines 39-121):
shape assertions, main loop, reference correction, the node-count
assertion `total_nodes == tree.node_count` (line 115), and the final
validator call with `roots=[0]` (line 119). -/
def flatten_tree (mode : LeafMode) (leaf_bits : Nat) (t : SourceTree) :
    Option FlatTree :=
  if t.node_count = t.value.length then
    match flattenLoop mode leaf_bits t (sourceRows t) 0 [] [] [] with
    | none => none
    | some (dns, lns, mp) =>
      match remapNodes mp dns with
      | none => none
      | some updated =>
        if updated.length + lns.length = t.node_count then
          if assert_node_references_valid updated lns [0] then
            some ⟨updated, lns⟩
          else none
        else none
  else none

/-- Offset rewrite applied to each decision node of a newly appended tree
(trees.py lines 193-201): decision references shift by the accumulated
decision-node offset, leaf references shift (in encoded negative space) by
the accumulated leaf offset. -/
def offsetNode (dOff lOff : Nat) (n : DNode) : DNode :=
  ⟨n.feature, n.threshold,
    if 0 ≤ n.left then n.left + dOff else n.left - lOff,
    if 0 ≤ n.right then n.right + dOff else n.right - lOff⟩

/-- Loop of `flatten_forest` (lines 188-212): flattens each tree (with the
default `leaf_bits = 8` of `flatten_tree`), offsets its references, appends
root `0 + decision_nodes_offset`, concatenates the arrays, and runs
`assert_forest_valid` after each appended tree and once at the end
(line 217). -/
def flattenForestLoop (mode : LeafMode) :
    List SourceTree → Nat → Nat → List Int → List DNode → List LeafPayload →
    Option Forest
  | [], _, _, roots, fnodes, fleaves =>
    if assert_forest_valid ⟨fnodes, roots, fleaves⟩ then
      some ⟨fnodes, roots, fleaves⟩
    else none
  | t :: rest, dOff, lOff, roots, fnodes, fleaves =>
    match flatten_tree mode 8 t with
    | none => none
    | some ft =>
      let root : Int := 0 + (dOff : Int)
      let shifted := ft.decision_nodes.map (offsetNode dOff lOff)
      let roots2 := roots ++ [root]
      let fnodes2 := fnodes ++ shifted
      let fleaves2 := fleaves ++ ft.leaf_nodes
      if assert_forest_valid ⟨fnodes2, roots2, fleaves2⟩ then
        flattenForestLoop mode rest (dOff + ft.decision_nodes.length)
          (lOff + ft.leaf_nodes.length) roots2 fnodes2 fleaves2
      else none

/-- Embeds `flatten_forest(trees, leaf)` (trees.py lines 181-218). -/
def flatten_forest (mode : LeafMode) (trees : List SourceTree) : Option Forest :=
  flattenForestLoop mode trees 0 0 [] [] []

/-- Mirrors Python `unique_leaves.index(node) if node in unique_leaves else
None` (line 230): first index of an equal element. -/
def listIndexOf (l : LeafPayload) : List LeafPayload → Option Nat
  | [] => none
  | x :: xs => if x = l then some 0 else (listIndexOf l xs).map (· + 1)

/-- Scan of `remove_duplicate_leaves` (lines 225-240) over the leaf array:
accumulates the unique leaves in first-seen order and the remap entries
`remap_leaves[-old_idx-1] = -new_idx-1`. -/
def dedupScan : List LeafPayload → List LeafPayload → List (Int × Int) → Nat →
    List LeafPayload × List (Int × Int)
  | [], uniq, remap, _ => (uniq, remap)
  | l :: rest, uniq, remap, old_idx =>
    match listIndexOf l uniq with
    | none =>
      dedupScan rest (uniq ++ [l])
        (remap ++ [(-(old_idx : Int) - 1, -(uniq.length : Int) - 1)]) (old_idx + 1)
    | some found =>
      dedupScan rest uniq
        (remap ++ [(-(old_idx : Int) - 1, -(found : Int) - 1)]) (old_idx + 1)

/-- Mirrors `remap_leaves.get(key, key)` (lines 247-248): keys are written
at most once, so first-match lookup agrees with dict semantics. -/
def remapGet : List (Int × Int) → Int → Int
  | [], k => k
  | p :: rest, k => if p.1 = k then p.2 else remapGet rest k

/-- Embeds `remove_duplicate_leaves(forest)` (trees.py lines 221-253).
The diagnostic `wasted_ratio = (len(leaves) - len(unique_leaves)) /
len(nodes)` (line 243) raises `ZeroDivisionError` when the decision-node
array is empty; that exception is modelled as `.error "ZeroDivisionError"`.
Python then rewrites the child references of the input `nodes` array IN
PLACE and returns the same `nodes` and `roots` objects; in this pure
embedding the returned forest's `nodes` is therefore also the post-call
state of the caller's decision-node array. -/
def remove_duplicate_leaves (f : Forest) : Except String Forest :=
  let scanned := dedupScan f.leaves [] [] 0
  let unique_leaves := scanned.1
  let remap := scanned.2
  if f.nodes.length = 0 then
    .error "ZeroDivisionError"
  else
    let updated := f.nodes.map (fun n =>
      ⟨n.feature, n.threshold, remapGet remap n.left, remapGet remap n.right⟩)
    let f2 : Forest := ⟨updated, f.roots, unique_leaves⟩
    if assert_forest_valid f2 then .ok f2 else .error "AssertionError"

/-- Little-endian byte decomposition of one IEEE-754 binary32 datum
(4 bytes, least significant first), as produced for each array element by
`numpy.astype(numpy.float32).tobytes()` on a little-endian target.  The
float32 value is represented by its 32-bit pattern as a `Nat`. -/
def float32_le_bytes (bits : Nat) : List Nat :=
  [bits % 256, bits / 256 % 256, bits / 256 ^ 2 % 256, bits / 256 ^ 3 % 256]

/-- Embeds `leaves_to_bytelist(leaves, leaf_bits)` (trees.py lines 357-373)
over leaves given as float32 bit patterns: width 0 returns the payload list
unchanged, width 32 emits 4 little-endian bytes per leaf and asserts
`len(out) == ceil(32/8) * len(leaves)`, every other width raises
`ValueError('Only 0 or 32 supported for leaf_bits')`. -/
def leaves_to_bytelist (leaves : List Nat) (leaf_bits : Nat) :
    Except String (List Nat) :=
  if leaf_bits = 0 then .ok leaves
  else if leaf_bits = 32 then
    let out := (leaves.map float32_le_bytes).flatten
    if out.length = 4 * leaves.length then .ok out
    else .error "AssertionError"
  else .error "Only 0 or 32 supported for leaf_bits"

/-- Embeds the capacity gate of `Wrapper.__init__` (trees.py lines
564-567): `n_nodes = len(self.forest_[0])` decision nodes are compared
against `max_nodes = 2**15` and a `ValueError` reporting both numbers is
raised when the count exceeds the limit. -/
def wrapper_capacity_check (f : Forest) : Except String Forest :=
  let n_nodes := f.nodes.length
  let max_nodes := 2 ^ 15
  if n_nodes > max_nodes then
    .error ("Model has " ++ toString n_nodes ++ " nodes. Max supported is " ++
      toString max_nodes ++ " nodes.")
  else .ok f

/-- Modelled from the spec: section 4.3's reading of the `probabilities`
leaf mode, which says the value vector is first NORMALIZED and then
quantized.  Used only to compare the spec's wording against the source's
`quantize_probabilities(value[0], bits)`, which does not normalize. -/
def specNormalize (row : List Rat) : List Rat :=
  row.map (fun x => x / row.sum)

/-- Modelled from the spec: quantization of the normalized value vector,
the leaf payload that section 4.1/4.3 of the spec describes for
`probabilities` mode. -/
def specNormalizeQuantize (row : List Rat) (bits : Nat) : Option (List Nat) :=
  quantize_probabilities (specNormalize row) bits

/-- Rational one half, written as a raw structure literal so that kernel
evaluation never has to normalize a fraction. -/
def ratHalf : Rat := ⟨1, 2, by decide, Nat.coprime_one_left 2⟩

/-- Example A of the spec: one decision node (feature 0, threshold 0.5)
whose two children are leaves with majority classes 0 and 1, in
scikit-learn parallel-array form (root is node 0, leaves are nodes 1, 2). -/
def treeA : SourceTree :=
  { children_left := [1, -1, -1]
    children_right := [2, -1, -1]
    feature := [0, -2, -2]
    threshold := [ratHalf, -2, -2]
    value := [[0, 0], [1, 0], [0, 1]]
    node_count := 3 }

/-- Degenerate single-node source tree whose root is itself a leaf. -/
def treeLeaf : SourceTree :=
  { children_left := [-1]
    children_right := [-1]
    feature := [-2]
    threshold := [-2]
    value := [[1, 0]]
    node_count := 1 }

/-- Source tree used for the `probabilities` leaf mode: same shape as
Example A but with unnormalized value rows `[0, 2]` and `[1, 1]` at the
two leaves. -/
def treeP : SourceTree :=
  { children_left := [1, -1, -1]
    children_right := [2, -1, -1]
    feature := [0, -2, -2]
    threshold := [ratHalf, -2, -2]
    value := [[0, 0], [0, 2], [1, 1]]
    node_count := 3 }

/-- Example B of the spec: the forest obtained by merging two copies of
Example A's tree. -/
def forestB : Forest :=
  { nodes := [⟨0, ratHalf, -1, -2⟩, ⟨0, ratHalf, -3, -4⟩]
    roots := [0, 1]
    leaves := [.cls 0, .cls 1, .cls 0, .cls 1] }

/-- Example B after leaf deduplication. -/
def forestBDedup : Forest :=
  { nodes := [⟨0, ratHalf, -1, -2⟩, ⟨0, ratHalf, -1, -2⟩]
    roots := [0, 1]
    leaves := [.cls 0, .cls 1] }

/-- Forest whose only reference defect is a dangling RIGHT leaf reference:
node 1's right child `-5` decodes to leaf index 4, but there are only two
leaves.  Every left reference and every other invariant is satisfied. -/
def danglingRightForest : Forest :=
  { nodes := [⟨0, ratHalf, -1, -2⟩, ⟨1, ratHalf, -2, -5⟩]
    roots := [0, 1]
    leaves := [.cls 0, .cls 1] }

/-- Result of flattening Example A's tree. -/
def flatTreeA : FlatTree :=
  { decision_nodes := [⟨0, ratHalf, -1, -2⟩]
    leaf_nodes := [.cls 0, .cls 1] }

/-- Forest obtained from the single tree of Example A. -/
def forestA : Forest :=
  { nodes := [⟨0, ratHalf, -1, -2⟩]
    roots := [0]
    leaves := [.cls 0, .cls 1] }

/-- Forest with exactly `2^15` decision nodes, at the capacity limit. -/
def bigForestOk : Forest :=
  { nodes := List.replicate (2 ^ 15) ⟨0, 0, -1, -1⟩
    roots := []
    leaves := [] }

/-- Forest with `2^15 + 1` decision nodes, one over the capacity limit. -/
def bigForestOver : Forest :=
  { nodes := List.replicate (2 ^ 15 + 1) ⟨0, 0, -1, -1⟩
    roots := []
    leaves := [] }

/-- C1: merging two copies of the one-decision-node tree of Example A
(feature 0, threshold 0.5, leaves for classes 0 and 1) via
`flatten_forest` yields `roots=[0,1]`, `nodes=[{0,0.5,-1,-2},{0,0.5,-3,-4}]`,
`leaves=[0,1,0,1]`; applying `remove_duplicate_leaves` to that forest then
yields `leaves=[0,1]` with both decision nodes' child references equal to
`-1` and `-2`. -/
theorem C1_exampleB_merge_dedup :
    flatten_forest .argmax [treeA, treeA] = some forestB ∧
    remove_duplicate_leaves forestB = .ok forestBDedup :=
  ⟨by decide, by rfl⟩

/-- C3 (code bug): `assert_node_references_valid` ACCEPTS a forest that
contains a dangling leaf reference, provided the dangling reference sits in
a RIGHT child: node 1 of `danglingRightForest` has right child `-5`, which
decodes to leaf index `-(-5)-1 = 4`, outside the two-element leaf array,
yet the validator returns without raising, because line 169 of trees.py
re-asserts `invalid_leaves_left` instead of the just-computed
`invalid_leaves_right`.  The claim says every dangling leaf reference is
rejected; the code contradicts its own manifest intent. -/
theorem C3_validator_misses_dangling_right :
    assert_forest_valid danglingRightForest = true ∧
    danglingRightForest.nodes.get? 1 = some ⟨1, ratHalf, -2, -5⟩ ∧
    -(-5 : Int) - 1 = 4 ∧ danglingRightForest.leaves.length = 2 := by
  refine ⟨by decide, by decide, by decide, by decide⟩

/-- C4: the capacity gate of `Wrapper.__init__` accepts a merged forest
with exactly `2^15` decision nodes and rejects one with `2^15 + 1`,
reporting the actual count and the limit. -/
theorem C4_capacity_boundary (f g : Forest)
    (hf : f.nodes.length = 2 ^ 15) (hg : g.nodes.length = 2 ^ 15 + 1) :
    wrapper_capacity_check f = .ok f ∧
    wrapper_capacity_check g = .error ("Model has " ++ toString (2 ^ 15 + 1 : Nat) ++
      " nodes. Max supported is " ++ toString (2 ^ 15 : Nat) ++ " nodes.") := by
  unfold wrapper_capacity_check
  rw [hf, hg]
  norm_num

/-- Witness for C4 at forests of `2^15` and `2^15 + 1` replicated nodes. -/
theorem C4_capacity_boundary_witness :
    wrapper_capacity_check bigForestOk = .ok bigForestOk ∧
    wrapper_capacity_check bigForestOver = .error ("Model has " ++
      toString (2 ^ 15 + 1 : Nat) ++ " nodes. Max supported is " ++
      toString (2 ^ 15 : Nat) ++ " nodes.") :=
  C4_capacity_boundary bigForestOk bigForestOver
    (by simp only [bigForestOk, List.length_replicate])
    (by simp only [bigForestOver, List.length_replicate])

/-- C6: whenever `flatten_tree` returns, the number of output decision
nodes plus the number of output leaf payloads equals the source tree's
node count (the assertion on line 115 of trees.py guards the return). -/
theorem C6_flatten_node_count (mode : LeafMode) (bits : Nat) (t : SourceTree)
    (ft : FlatTree) (h : flatten_tree mode bits t = some ft) :
    ft.decision_nodes.length + ft.leaf_nodes.length = t.node_count := by
  unfold flatten_tree at h
  split at h
  case isFalse => exact absurd h (by simp)
  case isTrue hshape =>
    split at h
    case h_1 => exact absurd h (by simp)
    case h_2 dns lns mp heq =>
      split at h
      case h_1 => exact absurd h (by simp)
      case h_2 updated hupd =>
        split at h
        case isFalse => exact absurd h (by simp)
        case isTrue hcount =>
          split at h
          case isFalse => exact absurd h (by simp)
          case isTrue hvalid =>
            cases h
            exact hcount

/-- Witness for C6 at Example A's tree. -/
theorem C6_flatten_node_count_witness :
    flatTreeA.decision_nodes.length + flatTreeA.leaf_nodes.length =
      treeA.node_count :=
  C6_flatten_node_count .argmax 8 treeA flatTreeA (by decide)

/-- C10: `flatten_forest` on an empty tree sequence returns the forest
with empty node, root and leaf arrays, that forest passes the validator,
and `remove_duplicate_leaves` on ANY forest with an empty decision-node
array raises `ZeroDivisionError` while computing the duplicate ratio,
instead of returning a forest. -/
theorem C10_empty_forest_division_by_zero :
    flatten_forest .argmax [] = some ⟨[], [], []⟩ ∧
    assert_forest_valid ⟨[], [], []⟩ = true ∧
    ∀ f : Forest, f.nodes = [] →
      remove_duplicate_leaves f = .error "ZeroDivisionError" := by
  refine ⟨by decide, by decide, ?_⟩
  intro f hf
  unfold remove_duplicate_leaves
  rw [hf]
  simp

/-- Witness for C10 at a concrete empty-node forest with a root and a
leaf (which still passes the validator, hence is a valid forest). -/
theorem C10_empty_forest_division_by_zero_witness :
    remove_duplicate_leaves ⟨[], [0], []⟩ = .error "ZeroDivisionError" :=
  C10_empty_forest_division_by_zero.2.2 ⟨[], [0], []⟩ rfl

/-- Helper for C2: every root emitted by the `flatten_forest` loop is the
non-negative decision-node offset `0 + decision_nodes_offset`, so a
returned forest never contains a negative (`Leaf`-encoded) root. -/
theorem flattenForestLoop_roots_nonneg (mode : LeafMode) :
    ∀ (trees : List SourceTree) (dOff lOff : Nat) (roots : List Int)
      (fnodes : List DNode) (fleaves : List LeafPayload) (f : Forest),
      (∀ r ∈ roots, 0 ≤ r) →
      flattenForestLoop mode trees dOff lOff roots fnodes fleaves = some f →
      ∀ r ∈ f.roots, 0 ≤ r := by
  intro trees
  induction trees with
  | nil =>
    intro dOff lOff roots fnodes fleaves f hroots h
    unfold flattenForestLoop at h
    split at h
    · cases h
      exact hroots
    · exact absurd h (by simp)
  | cons t ts ih =>
    intro dOff lOff roots fnodes fleaves f hroots h
    unfold flattenForestLoop at h
    split at h
    case h_1 => exact absurd h (by simp)
    case h_2 ft hft =>
      simp only [] at h
      split at h
      case isFalse => exact absurd h (by simp)
      case isTrue hvalid =>
        refine ih _ _ _ _ _ f ?_ h
        intro r hr
        rcases List.mem_append.mp hr with hr1 | hr2
        · exact hroots r hr1
        · have : r = 0 + (dOff : Int) := List.mem_singleton.mp hr2
          omega

/-- C2 counterexample: on the degenerate single-node source tree whose
root is itself a leaf, `flatten_tree` raises (its node-count assertion
fails: it produces 0 decision nodes and 0 leaves against a source node
count of 1), so flattening and merging do NOT succeed and no shifted
`Leaf`-reference root is contributed. -/
theorem C2_counterexample :
    flatten_tree .argmax 8 treeLeaf = none ∧
    flatten_forest .argmax [treeLeaf] = none :=
  ⟨by decide, by decide⟩

/-- C2 as amended: for every degenerate single-node source tree whose root
is itself a leaf, `flatten_tree` fails (no leaf is ever recorded because
leaves are only emitted through a parent decision node, so the node-count
assertion `0 + 0 == 1` on line 115 of trees.py raises), hence merging such
a tree fails as well; moreover every root of a successfully merged forest
is a non-negative decision-node index, never a `Leaf` reference. -/
theorem C2_amended :
    (∀ (mode : LeafMode) (bits : Nat) (t : SourceTree),
      t.children_left = [-1] → t.children_right = [-1] → t.node_count = 1 →
      flatten_tree mode bits t = none) ∧
    (∀ (mode : LeafMode) (trees : List SourceTree) (f : Forest),
      flatten_forest mode trees = some f → ∀ r ∈ f.roots, 0 ≤ r) := by
  constructor
  · intro mode bits t hcl hcr hnc
    unfold flatten_tree
    rw [hnc]
    by_cases hv : 1 = t.value.length
    · obtain ⟨v, hv2⟩ := List.length_eq_one.mp hv.symm
      rw [if_pos hv]
      unfold sourceRows
      rw [hcl, hcr, hv2]
      cases hf : t.feature with
      | nil => rfl
      | cons fh fs =>
        cases ht : t.threshold with
        | nil => rfl
        | cons a as => rfl
    · rw [if_neg hv]
  · intro mode trees f h
    exact flattenForestLoop_roots_nonneg mode trees 0 0 [] [] [] f
      (by intro r hr; cases hr) h

/-- Witness for C2's amended statement: the degenerate one-leaf tree fails
to flatten, and root 0 of the merged Example A forest is non-negative. -/
theorem C2_amended_witness :
    flatten_tree .argmax 8 treeLeaf = none ∧ (0 : Int) ≤ 0 :=
  ⟨C2_amended.1 .argmax 8 treeLeaf rfl rfl rfl,
   C2_amended.2 .argmax [treeA] forestA (by decide) 0 (by decide)⟩

/-- C7: `leaves_to_bytelist` with leaf bit width 0 returns the payload
list unchanged; with width 32 it succeeds and returns exactly 4 bytes per
leaf, each leaf contributing its IEEE-754 binary32 bit pattern in
little-endian byte order (float32 values are modelled by their bit
patterns); every other width — including the reserved widths 1-8 — raises
`ValueError('Only 0 or 32 supported for leaf_bits')`. -/
theorem C7_leaves_to_bytelist (leaves : List Nat) (bits : Nat) :
    leaves_to_bytelist leaves 0 = .ok leaves ∧
    leaves_to_bytelist leaves 32 = .ok ((leaves.map float32_le_bytes).flatten) ∧
    ((leaves.map float32_le_bytes).flatten).length = 4 * leaves.length ∧
    (bits ≠ 0 → bits ≠ 32 → leaves_to_bytelist leaves bits =
      .error "Only 0 or 32 supported for leaf_bits") := by
  have hlen : ∀ ls : List Nat,
      ((ls.map float32_le_bytes).flatten).length = 4 * ls.length := by
    intro ls
    induction ls with
    | nil => rfl
    | cons x xs ih =>
      simp only [List.map_cons, List.flatten_cons, List.length_append, ih,
        List.length_cons, float32_le_bytes]
      simp only [List.length_cons, List.length_nil]
      ring
  refine ⟨rfl, ?_, hlen leaves, ?_⟩
  · unfold leaves_to_bytelist
    rw [if_neg (by norm_num), if_pos rfl, if_pos (hlen leaves)]
  · intro h0 h32
    unfold leaves_to_bytelist
    rw [if_neg h0, if_neg h32]

/-- Witness for C7 at the single float32 bit pattern of `1.0f`
(`0x3F800000 = 1065353216`) and the reserved width 7. -/
theorem C7_leaves_to_bytelist_witness :
    leaves_to_bytelist [1065353216] 0 = .ok [1065353216] ∧
    leaves_to_bytelist [1065353216] 32 =
      .ok (([1065353216].map float32_le_bytes).flatten) ∧
    (([1065353216].map float32_le_bytes).flatten).length = 4 * [1065353216].length ∧
    leaves_to_bytelist [1065353216] 7 = .error "Only 0 or 32 supported for leaf_bits" :=
  ⟨(C7_leaves_to_bytelist [1065353216] 7).1,
   (C7_leaves_to_bytelist [1065353216] 7).2.1,
   (C7_leaves_to_bytelist [1065353216] 7).2.2.1,
   (C7_leaves_to_bytelist [1065353216] 7).2.2.2 (by decide) (by decide)⟩

set_option maxRecDepth 4000 in
/-- C8 counterexample: in `probabilities` mode the code quantizes the RAW
value row (line 59 of trees.py passes `value[0]` directly to
`quantize_probabilities`), so on the tree `treeP`, whose first leaf has
value row `[0, 2]`, the emitted payload is `[1, 3]`, while the payload the
claim describes — quantization of the NORMALIZED row `[0, 1]` — is
`[1, 2]`. -/
theorem C8_counterexample :
    flatten_tree .probabilities 8 treeP =
      some ⟨[⟨0, ratHalf, -1, -2⟩], [.probs [1, 3], .probs [2, 2]]⟩ ∧
    specNormalizeQuantize [0, 2] 8 = some [1, 2] ∧
    LeafPayload.probs [1, 3] ≠ LeafPayload.probs [1, 2] := by
  refine ⟨by decide, ?_, by decide⟩
  have h : specNormalize [0, 2] = [0, 1] := by
    unfold specNormalize
    norm_num
  unfold specNormalizeQuantize
  rw [h]
  decide

/-- Helper for C8: `numpy.digitize` over the ascending integer edges
`[0, ..., steps-1]` assigns a code of at least `k+1` to any value at or
above edge `k`. -/
theorem digitize_ge_of_le (steps k : Nat) (x : Rat) (hk : k < steps)
    (hx : (k : Rat) ≤ x) : k + 1 ≤ digitizeOne (List.range steps) x := by
  unfold digitizeOne
  have hsplit : steps = (k + 1) + (steps - (k + 1)) := by omega
  rw [hsplit, List.range_add, List.countP_append]
  have h1 : (List.range (k + 1)).countP (fun (b : Nat) => decide ((b : Rat) ≤ x)) = k + 1 := by
    have := List.countP_eq_length (p := fun (b : Nat) => decide ((b : Rat) ≤ x))
      (l := List.range (k + 1))
    rw [List.length_range] at this
    refine this.mpr ?_
    intro b hb
    have hb2 : b ≤ k := Nat.le_of_lt_succ (List.mem_range.mp hb)
    have hbk : (b : Rat) ≤ (k : Rat) := by exact_mod_cast hb2
    simpa using le_trans hbk hx
  omega

/-- C8 as amended: in `probabilities` mode each leaf payload is produced
by quantizing the node's RAW value vector (no normalization) into `N` bits
(`1 ≤ N ≤ 8`), using the `steps = 2^N − 1` fixed integer bin edges
`0, 1, ..., 2^N − 2` (they do not span the value range), assigning integer
codes by digitization so that value ≥ edge `k` implies code ≥ `k+1`, and
casting the code to `uint8`. -/
theorem C8_amended (bits : Nat) (row : List Rat) (out : List Nat)
    (h : quantize_probabilities row bits = some out) :
    (1 ≤ bits ∧ bits ≤ 8) ∧
    out = row.map (fun x => digitizeOne (List.range (2 ^ bits - 1)) x % 256) ∧
    ∀ x ∈ row, ∀ k : Nat, k < 2 ^ bits - 1 → (k : Rat) ≤ x →
      k + 1 ≤ digitizeOne (List.range (2 ^ bits - 1)) x := by
  unfold quantize_probabilities at h
  split at h
  case isFalse => exact absurd h (by simp)
  case isTrue hb =>
    cases h
    exact ⟨⟨hb.2, hb.1⟩, rfl, fun x _ k hk hx => digitize_ge_of_le _ k x hk hx⟩

set_option maxRecDepth 4000 in
/-- Witness for C8's amended statement at Example C's input
`[0, 0.5, 1]` with 8 bits (output codes `[1, 1, 2]`), instantiating the
digitization bound at `x = 1`, `k = 0`. -/
theorem C8_amended_witness :
    (1 ≤ 8 ∧ 8 ≤ 8) ∧
    0 + 1 ≤ digitizeOne (List.range (2 ^ 8 - 1)) 1 :=
  ⟨(C8_amended 8 [0, ratHalf, 1] [1, 1, 2] (by decide)).1,
   (C8_amended 8 [0, ratHalf, 1] [1, 1, 2] (by decide)).2.2 1 (by decide) 0
     (by decide) (by decide)⟩

/-- Helper: Python's `node in unique_leaves` test is the defined-ness of
`listIndexOf`. -/
theorem listIndexOf_eq_none_iff (l : LeafPayload) (xs : List LeafPayload) :
    listIndexOf l xs = none ↔ l ∉ xs := by
  induction xs with
  | nil => simp [listIndexOf]
  | cons x xs ih =>
    by_cases hx : x = l
    · subst hx
      simp [listIndexOf]
    · unfold listIndexOf
      rw [if_neg hx]
      simp only [Option.map_eq_none', ih, List.mem_cons]
      constructor
      · intro h hmem
        rcases hmem with h1 | h2
        · exact hx h1.symm
        · exact h h2
      · intro h hmem
        exact h (Or.inr hmem)

/-- Helper: the unique-leaf accumulator of `dedupScan` stays duplicate
free. -/
theorem dedupScan_fst_nodup :
    ∀ (ls uniq : List LeafPayload) (remap : List (Int × Int)) (i : Nat),
      uniq.Nodup → (dedupScan ls uniq remap i).1.Nodup := by
  intro ls
  induction ls with
  | nil =>
    intro uniq remap i h
    exact h
  | cons l rest ih =>
    intro uniq remap i h
    unfold dedupScan
    split
    case h_1 hidx =>
      have hnotmem : l ∉ uniq := (listIndexOf_eq_none_iff l uniq).mp hidx
      refine ih _ _ _ ?_
      rw [List.nodup_append]
      refine ⟨h, List.nodup_singleton l, ?_⟩
      intro a ha hmem
      rw [List.mem_singleton] at hmem
      subst hmem
      exact hnotmem ha
    case h_2 found hidx => exact ih _ _ _ h

/-- Helper: scanning a duplicate-free leaf list that is disjoint from the
accumulated unique leaves appends it unchanged, and every remap entry the
scan adds maps an encoded index to itself. -/
theorem dedupScan_id :
    ∀ (ls uniq : List LeafPayload) (remap : List (Int × Int)) (i : Nat),
      ls.Nodup → (∀ l ∈ ls, l ∉ uniq) → uniq.length = i →
      (dedupScan ls uniq remap i).1 = uniq ++ ls ∧
      ∀ p ∈ (dedupScan ls uniq remap i).2, p ∈ remap ∨ p.1 = p.2 := by
  intro ls
  induction ls with
  | nil =>
    intro uniq remap i hnd hmem hlen
    exact ⟨(List.append_nil uniq).symm, fun p hp => Or.inl hp⟩
  | cons l rest ih =>
    intro uniq remap i hnd hmem hlen
    unfold dedupScan
    rw [(listIndexOf_eq_none_iff l uniq).mpr (hmem l (List.mem_cons_self l rest))]
    have hrec := ih (uniq ++ [l])
      (remap ++ [(-(i : Int) - 1, -(uniq.length : Int) - 1)]) (i + 1)
      (List.Nodup.of_cons hnd) ?_ ?_
    · refine ⟨?_, ?_⟩
      · rw [hrec.1, List.append_assoc]
        rfl
      · intro p hp
        rcases hrec.2 p hp with h1 | h2
        · rcases List.mem_append.mp h1 with h3 | h4
          · exact Or.inl h3
          · right
            have hp4 := List.mem_singleton.mp h4
            subst hp4
            rw [hlen]
        · exact Or.inr h2
    · intro x hx
      rw [List.mem_append, List.mem_singleton]
      rintro (hx1 | hx2)
      · exact hmem x (List.mem_cons_of_mem l hx) hx1
      · subst hx2
        exact (List.nodup_cons.mp hnd).1 hx
    · rw [List.length_append, hlen]
      rfl

/-- Helper: `remap_leaves.get(k, k)` is the identity when every stored
entry maps a key to itself. -/
theorem remapGet_id (remap : List (Int × Int)) (k : Int)
    (h : ∀ p ∈ remap, p.1 = p.2) : remapGet remap k = k := by
  induction remap with
  | nil => rfl
  | cons p rest ih =>
    unfold remapGet
    by_cases hp : p.1 = k
    · rw [if_pos hp]
      exact (h p (List.mem_cons_self p rest)).symm.trans hp
    · rw [if_neg hp]
      exact ih (fun q hq => h q (List.mem_cons_of_mem p hq))

/-- Helper: the reference-rewrite pass of `remove_duplicate_leaves` is the
identity when the remap is. -/
theorem dedupMap_id (nodes : List DNode) (remap : List (Int × Int))
    (h : ∀ p ∈ remap, p.1 = p.2) :
    nodes.map (fun n => (⟨n.feature, n.threshold, remapGet remap n.left,
      remapGet remap n.right⟩ : DNode)) = nodes := by
  induction nodes with
  | nil => rfl
  | cons n rest ih =>
    have hhead : (⟨n.feature, n.threshold, remapGet remap n.left,
        remapGet remap n.right⟩ : DNode) = n := by
      rw [remapGet_id _ _ h, remapGet_id _ _ h]
    rw [List.map_cons, hhead, ih]

/-- Helper: every key recorded in the remap built by `dedupScan` is a
negative encoded leaf reference. -/
theorem dedupScan_keys_neg :
    ∀ (ls uniq : List LeafPayload) (remap : List (Int × Int)) (i : Nat),
      (∀ p ∈ remap, p.1 < 0) → ∀ p ∈ (dedupScan ls uniq remap i).2, p.1 < 0 := by
  intro ls
  induction ls with
  | nil =>
    intro uniq remap i h
    exact h
  | cons l rest ih =>
    intro uniq remap i h
    unfold dedupScan
    split
    case h_1 hidx =>
      refine ih _ _ _ ?_
      intro p hp
      rcases List.mem_append.mp hp with h1 | h2
      · exact h p h1
      · have hp2 := List.mem_singleton.mp h2
        subst hp2
        simp only
        omega
    case h_2 found hidx =>
      refine ih _ _ _ ?_
      intro p hp
      rcases List.mem_append.mp hp with h1 | h2
      · exact h p h1
      · have hp2 := List.mem_singleton.mp h2
        subst hp2
        simp only
        omega

/-- Helper: `remap_leaves.get(k, k)` leaves non-negative (decision-node)
references untouched, since every stored key is negative. -/
theorem remapGet_nonneg (remap : List (Int × Int)) (k : Int) (hk : 0 ≤ k)
    (h : ∀ p ∈ remap, p.1 < 0) : remapGet remap k = k := by
  induction remap with
  | nil => rfl
  | cons p rest ih =>
    unfold remapGet
    have hp : ¬ p.1 = k := by
      have := h p (List.mem_cons_self p rest)
      omega
    rw [if_neg hp]
    exact ih (fun q hq => h q (List.mem_cons_of_mem p hq))

/-- Helper: characterization of a successful `remove_duplicate_leaves`
call in terms of its scan, node rewrite and final validator check. -/
theorem remove_duplicate_leaves_ok (f g : Forest)
    (h : remove_duplicate_leaves f = .ok g) :
    g.nodes = f.nodes.map (fun n => (⟨n.feature, n.threshold,
        remapGet (dedupScan f.leaves [] [] 0).2 n.left,
        remapGet (dedupScan f.leaves [] [] 0).2 n.right⟩ : DNode)) ∧
    g.roots = f.roots ∧
    g.leaves = (dedupScan f.leaves [] [] 0).1 ∧
    f.nodes.length ≠ 0 ∧
    assert_forest_valid g = true := by
  unfold remove_duplicate_leaves at h
  simp only [] at h
  split at h
  case isTrue => exact absurd h (by simp)
  case isFalse hne =>
    split at h
    case isTrue hval =>
      injection h with h2
      subst h2
      exact ⟨rfl, rfl, rfl, hne, hval⟩
    case isFalse => exact absurd h (by simp)

/-- C5: `remove_duplicate_leaves` is idempotent — whenever it succeeds,
its output is a fixed point: the output's leaves are duplicate free in
first-seen order, so a second scan rebuilds the identity remap, rewrites
no reference, and returns the same forest. -/
theorem C5_dedup_idempotent (f g : Forest)
    (h : remove_duplicate_leaves f = .ok g) :
    remove_duplicate_leaves g = .ok g := by
  obtain ⟨hnodes, hroots, hleaves, hne, hval⟩ := remove_duplicate_leaves_ok f g h
  have hnodup : g.leaves.Nodup := by
    rw [hleaves]
    exact dedupScan_fst_nodup f.leaves [] [] 0 List.nodup_nil
  have hscan := dedupScan_id g.leaves [] [] 0 hnodup
    (by intro l hl hmem; cases hmem) rfl
  have hid : ∀ p ∈ (dedupScan g.leaves [] [] 0).2, p.1 = p.2 := by
    intro p hp
    rcases hscan.2 p hp with h1 | h2
    · cases h1
    · exact h2
  have hmap : g.nodes.map (fun n => (⟨n.feature, n.threshold,
      remapGet (dedupScan g.leaves [] [] 0).2 n.left,
      remapGet (dedupScan g.leaves [] [] 0).2 n.right⟩ : DNode)) = g.nodes :=
    dedupMap_id g.nodes _ hid
  have hfst : (dedupScan g.leaves [] [] 0).1 = g.leaves := by
    rw [hscan.1]
    rfl
  have hlen : ¬ g.nodes.length = 0 := by
    rw [hnodes, List.length_map]
    exact hne
  unfold remove_duplicate_leaves
  simp only []
  rw [if_neg hlen, hfst, hmap]
  have heta : (⟨g.nodes, g.roots, g.leaves⟩ : Forest) = g := rfl
  rw [heta, if_pos hval]

/-- Witness for C5: deduplicating the already-deduplicated Example B
forest returns it unchanged. -/
theorem C5_dedup_idempotent_witness :
    remove_duplicate_leaves forestBDedup = .ok forestBDedup :=
  C5_dedup_idempotent forestB forestBDedup (by rfl)

/-- C9 counterexample: `remove_duplicate_leaves` rewrites the child
references of the input's decision-node array IN PLACE (lines 246-248 of
trees.py assign `n[2]`/`n[3]` on the input's node objects and return the
same arrays), so after the call on the merged Example B forest the
caller's decision-node array — which is the returned one — differs from
its pre-call value: node 1's children changed from `(-3, -4)` to
`(-1, -2)`.  The input forest's decision-node array is therefore NOT
unchanged. -/
theorem C9_counterexample :
    remove_duplicate_leaves forestB = .ok forestBDedup ∧
    forestBDedup.nodes ≠ forestB.nodes :=
  ⟨by rfl, by decide⟩

/-- C9 as amended: `remove_duplicate_leaves` returns a forest sharing the
input's (in-place rewritten) node and root arrays; the roots, the node
count, each node's feature and threshold, and every non-negative
(decision-node) child reference are preserved — only negative (leaf)
child references are remapped, so the input's decision-node array is
unchanged exactly when that remap moves no reference it contains. -/
theorem C9_amended_frame (f g : Forest) (h : remove_duplicate_leaves f = .ok g) :
    g.roots = f.roots ∧ g.nodes.length = f.nodes.length ∧
    List.Forall₂ (fun a b : DNode =>
      a.feature = b.feature ∧ a.threshold = b.threshold ∧
      (0 ≤ b.left → a.left = b.left) ∧ (0 ≤ b.right → a.right = b.right))
      g.nodes f.nodes := by
  obtain ⟨hnodes, hroots, hleaves, hne, hval⟩ := remove_duplicate_leaves_ok f g h
  have hkeys : ∀ p ∈ (dedupScan f.leaves [] [] 0).2, p.1 < 0 :=
    dedupScan_keys_neg f.leaves [] [] 0 (by intro p hp; cases hp)
  refine ⟨hroots, by rw [hnodes, List.length_map], ?_⟩
  rw [hnodes]
  induction f.nodes with
  | nil => exact List.Forall₂.nil
  | cons n rest ih =>
    rw [List.map_cons]
    refine List.Forall₂.cons ⟨rfl, rfl, ?_, ?_⟩ ih
    · intro hl
      exact remapGet_nonneg _ n.left hl hkeys
    · intro hr
      exact remapGet_nonneg _ n.right hr hkeys

/-- Witness for C9's amended statement on the Example B forest. -/
theorem C9_amended_frame_witness :
    forestBDedup.roots = forestB.roots ∧
    forestBDedup.nodes.length = forestB.nodes.length ∧
    List.Forall₂ (fun a b : DNode =>
      a.feature = b.feature ∧ a.threshold = b.threshold ∧
      (0 ≤ b.left → a.left = b.left) ∧ (0 ≤ b.right → a.right = b.right))
      forestBDedup.nodes forestB.nodes :=
  C9_amended_frame forestB forestBDedup (by rfl)
